import Mathlib

/-!
Shallow embedding of the struct-tag-validator repository
(src/tag.go, src/validator.go) and proofs about its behaviour.

Strings are Lean `String`s; Go's `map[string]bool` duplicate cache is a list
of keys queried by membership; Go's `map[string][]func` processor registry is
an association list with one entry per key (the shape Go's map has, since
entries are only ever created through AddProcessor).  Go map iteration order
is unspecified; the embedding fixes a list order, which affects only the
relative order of error values, never any count or membership fact used below.
-/

namespace StructTagValidator

/-- Tag represents a model struct tag (src/tag.go): fields name, value,
structName in declaration order. -/
structure Tag where
  name : String
  value : String
  structName : String
deriving DecidableEq, Repr

/-- One validation finding.  Each constructor mirrors one of the distinct
format strings produced in src/validator.go; the carried strings are the
arguments given to fmt.Errorf, in order. -/
inductive VError where
  /-- "Invalid symboles %v in %v.%v.%v" (mtch, structName, tagName, value) -/
  | invalidSymbols (mtch structName tagName value : String)
  /-- "Tag cannot end on %v in  %v.%v.%v" (mtch, structName, tagName, value) -/
  | badTagEnd (mtch structName tagName value : String)
  /-- "Tag cannot be empty %v.%v" (structName, tagName) -/
  | emptyTag (structName tagName : String)
  /-- "Duplicate tag value %v in %v.%v" (value, structName, tagName) -/
  | duplicateTag (value structName tagName : String)
  /-- "there are no processors to run, consider adding the default ones" -/
  | noProcessors
  /-- "No tags found" -/
  | noTagsFound
  /-- an error returned by a caller-supplied processor -/
  | custom (msg : String)
deriving DecidableEq, Repr

/-- the character class `[a-z0-9_, ]` of the regex `[^a-z0-9_, ]+` in
defaultRegexRules (src/validator.go line 16). -/
def allowedSymbol (c : Char) : Bool :=
  ('a' ≤ c && c ≤ 'z') || ('0' ≤ c && c ≤ '9') || c = '_' || c = ',' || c = ' '

/-- the character class `[a-z0-9]` of the regex `[^a-z0-9]$` in
defaultRegexRules (src/validator.go line 18). -/
def allowedEnding (c : Char) : Bool :=
  ('a' ≤ c && c ≤ 'z') || ('0' ≤ c && c ≤ '9')

/-- Go's FindString for `[^a-z0-9_, ]+`: the leftmost maximal run of
characters outside the class, or none when every character is in it. -/
def findIllegalRun : List Char → Option (List Char)
  | [] => none
  | c :: cs =>
    if allowedSymbol c then findIllegalRun cs
    else some (c :: cs.takeWhile (fun d => !allowedSymbol d))

/-- FindString of the "Invalid symboles" regex on a value ("" when no match,
as Go's FindString returns the empty string then). -/
def findInvalidSymbols (s : String) : String :=
  match findIllegalRun s.data with
  | some run => run.asString
  | none => ""

/-- FindString of the "Tag cannot end on" regex `[^a-z0-9]$`: matches exactly
the last character when there is one and it is outside `[a-z0-9]`. -/
def findBadEnding (s : String) : String :=
  match s.data.getLast? with
  | some c => if allowedEnding c then "" else String.mk [c]
  | none => ""

/-- the "Invalid symboles" half of the first default processor
(src/validator.go lines 43-49): one error when FindString found a match. -/
def invalidSymbolsErrors (t : Tag) : List VError :=
  let m := findInvalidSymbols t.value
  if m.length > 0 then [.invalidSymbols m t.structName t.name t.value] else []

/-- the "Tag cannot end on" half of the first default processor. -/
def badEndingErrors (t : Tag) : List VError :=
  let m := findBadEnding t.value
  if m.length > 0 then [.badTagEnd m t.structName t.name t.value] else []

/-- the first default processor: iterates defaultRegexRules applying
FindString (src/validator.go lines 40-52).  Go iterates the two-entry map in
unspecified order; the embedding fixes one, which only fixes the relative
order of the two error kinds. -/
def regexProcessor (t : Tag) : List VError :=
  invalidSymbolsErrors t ++ badEndingErrors t

/-- the second default processor: the emptiness check
(src/validator.go lines 54-62). -/
def emptyProcessor (t : Tag) : List VError :=
  if t.value.length = 0 then [.emptyTag t.structName t.name] else []

/-- a processor (rule): one tag in, a list of findings out. -/
abbrev Rule := Tag → List VError

/-- the processors map `map[string][]func(tag *Tag) []error`, as an
association list with at most one entry per key. -/
abbrev Processors := List (String × List Rule)

/-- map lookup `v.processors[k]` together with its `exists` flag. -/
def lookupProcs (ps : Processors) (k : String) : Option (List Rule) :=
  match ps.find? (fun e => e.1 == k) with
  | some e => some e.2
  | none => none

/-- AddProcessor (src/validator.go lines 156-159):
`v.processors[tag] = append(v.processors[tag], processor)`. -/
def addProcessor (ps : Processors) (tag : String) (f : Rule) : Processors :=
  match ps with
  | [] => [(tag, [f])]
  | e :: rest =>
    if e.1 == tag then (e.1, e.2 ++ [f]) :: rest
    else e :: addProcessor rest tag f

/-- the constant AllTags = "*" (src/validator.go line 12). -/
def AllTags : String := "*"

/-- AddDefaultProcessors (src/validator.go lines 32-64): for each requested
tag name (or "*" when none were given) registers the regex processor and then
the emptiness processor. -/
def addDefaultProcessors (ps : Processors) (tags : List String) : Processors :=
  let tags := if tags.isEmpty then [AllTags] else tags
  tags.foldl
    (fun acc tagStr =>
      addProcessor (addProcessor acc tagStr regexProcessor) tagStr emptyProcessor)
    ps

/-- the cache key `strings.Join([structName, name, value], ".")`. -/
def joinKey (s n v : String) : String := s ++ "." ++ n ++ "." ++ v

/-- the cache key of a tag. -/
def tagKey (t : Tag) : String := joinKey t.structName t.name t.value

/-- the duplicate cache `map[string]bool`, queried only by key membership. -/
abbrev Cache := List String

/-- checkForDuplicates (src/validator.go lines 67-78): report a duplicate when
the key is already present, then mark the key present unconditionally. -/
def checkForDuplicates (t : Tag) (c : Cache) : List VError × Cache :=
  let cacheKey := tagKey t
  let errs : List VError :=
    if cacheKey ∈ c then [.duplicateTag t.value t.structName t.name] else []
  (errs, cacheKey :: c)

/-- the executable processor list assembled for one tag inside validate
(src/validator.go lines 138-149): the name-keyed rules, then the
wildcard-keyed rules, each contributing nothing when its key is absent. -/
def executableProcessors (ps : Processors) (t : Tag) : List Rule :=
  (match lookupProcs ps t.name with | some l => l | none => []) ++
  (match lookupProcs ps AllTags with | some l => l | none => [])

/-- all findings the executable processors produce for one tag
(src/validator.go lines 150-152). -/
def execErrors (ps : Processors) (t : Tag) : List VError :=
  (executableProcessors ps t).flatMap (fun p => p t)

/-- the per-tag body of validate's inner loop: duplicate check (when
duplicates are not allowed) followed by the processors' findings. -/
def processField (ps : Processors) (allowDup : Bool) (t : Tag) (c : Cache) :
    List VError × Cache :=
  let dup := if allowDup then ([], c) else checkForDuplicates t c
  (dup.1 ++ execErrors ps t, dup.2)

/-- validate's inner loop over the fields of one struct. -/
def processFields (ps : Processors) (allowDup : Bool) :
    List Tag → Cache → List VError × Cache
  | [], c => ([], c)
  | t :: ts, c =>
    let r := processField ps allowDup t c
    let rest := processFields ps allowDup ts r.2
    (r.1 ++ rest.1, rest.2)

/-- the tags map `map[string][]*Tag` built by getTags, keyed by struct name. -/
abbrev TagsMap := List (String × List Tag)

/-- validate's outer loop over the tags map. -/
def processGroups (ps : Processors) (allowDup : Bool) :
    TagsMap → Cache → List VError × Cache
  | [], c => ([], c)
  | g :: rest, c =>
    let r := processFields ps allowDup g.2 c
    let r2 := processGroups ps allowDup rest r.2
    (r.1 ++ r2.1, r2.2)

/-- Validator.validate (src/validator.go lines 121-155): "No tags found" when
the tags map is empty, otherwise the nested loop starting from a fresh
duplicate cache. -/
def validate (ps : Processors) (allowDup : Bool) (tags : TagsMap) :
    List VError :=
  if tags.isEmpty then [.noTagsFound]
  else (processGroups ps allowDup tags []).1

/-- an unrecoverable condition: Go's panic, as raised inside getPackages
(src/tag.go lines 68-74). -/
inductive GoPanic where
  /-- `panic(err)` on a parser.ParseDir failure -/
  | parseFailure (msg : String)
  /-- `panic(fmt.Errorf("No structs found at %v", path))` -/
  | noStructs (path : String)
deriving DecidableEq, Repr

/-- a parsed package, identified by name; its file contents are behind the
external parser and are consumed only through the abstract extraction
function below. -/
abbrev Pkg := String

/-- strings.HasSuffix, stated on the character lists of its arguments. -/
def goHasSuffix (s suffix : String) : Bool :=
  suffix.data.isSuffixOf s.data

/-- strings.ToLower, lowercasing character by character. -/
def goToLower (s : String) : String := String.mk (s.data.map Char.toLower)

/-- the modelMap keys built in getPackages (src/tag.go lines 52-60):
`strings.Join([strings.ToLower(model), "go"], ".")` for each model name. -/
def modelKeys (models : List String) : List String :=
  models.map (fun m => goToLower m ++ ".go")

/-- the file filter closure handed to parser.ParseDir
(src/tag.go lines 62-71): `isNotTest != !exists` under a non-empty model
set, plain `isNotTest` otherwise. -/
def fileFilter (models : List String) (fileName : String) : Bool :=
  let isNotTest := !(goHasSuffix fileName "_test.go")
  if (modelKeys models).isEmpty then isNotTest
  else
    let isRequested := (modelKeys models).contains (goToLower fileName)
    isNotTest != (!isRequested)

/-- getPackages' outcome (src/tag.go lines 45-77) given the external
parser.ParseDir result over the filtered files: a parse error panics, an
empty package map panics with "No structs found", anything else is returned. -/
def getPackages (parseResult : Except String (List Pkg)) (path : String) :
    Except GoPanic (List Pkg) :=
  match parseResult with
  | .error e => .error (.parseFailure e)
  | .ok pkgs =>
    if pkgs.isEmpty then .error (.noStructs path) else .ok pkgs

/-- the Validator struct (src/validator.go lines 21-28). -/
structure Validator where
  packages : List Pkg
  tags : TagsMap
  processors : Processors
  path : String
  allowDuplicates : Bool

/-- NewValidator (src/validator.go lines 91-99). -/
def NewValidator (path : String) : Validator :=
  { packages := [], tags := [], processors := [], path := path,
    allowDuplicates := false }

/-- Validator.Run (src/validator.go lines 101-119).  The package scan's
outcome is a parameter (it happens first: a panic in it propagates before the
registry is inspected); getTags — struct-field extraction over the parsed
packages through channels — is abstracted as the function `extract` from the
processor keys and the packages to the tags map. -/
def run (v : Validator) (scan : Except GoPanic (List Pkg))
    (extract : List String → List Pkg → TagsMap) :
    Except GoPanic (Validator × List VError) :=
  match scan with
  | .error p => .error p
  | .ok pkgs =>
    let v1 := { v with packages := pkgs }
    if v1.processors.isEmpty then .ok (v1, [.noProcessors])
    else
      let tagNames := v1.processors.map (fun e => e.1)
      let v2 := { v1 with tags := extract tagNames pkgs }
      .ok (v2, validate v2.processors v2.allowDuplicates v2.tags)

/-- the spec's claimed allowed character set `[a-z0-9_ ]` for the
character-set rule (spec §4.4), stated from the spec's words for comparison
with the source's `allowedSymbol`. -/
def specAllowedSymbol (c : Char) : Bool :=
  ('a' ≤ c && c ≤ 'z') || ('0' ≤ c && c ≤ '9') || c = '_' || c = ' '

/-- whether an error value is a duplicate finding. -/
def isDupErr : VError → Bool
  | .duplicateTag _ _ _ => true
  | _ => false

/-- whether an error value is the duplicate finding for the cache key k. -/
def isDupFor (k : String) : VError → Bool
  | .duplicateTag v s n => joinKey s n v == k
  | _ => false

/-- the number of maximal runs of characters outside `[a-z0-9_, ]`, tracking
whether the scan is currently inside such a run. -/
def illegalRunCountAux : List Char → Bool → Nat
  | [], _ => 0
  | c :: cs, inRun =>
    if allowedSymbol c then illegalRunCountAux cs false
    else (if inRun then 0 else 1) + illegalRunCountAux cs true

/-- the number of distinct illegal-character runs in a value (the quantity
the spec's "one error per distinct illegal-character run" speaks of). -/
def illegalRunCount (s : String) : Nat := illegalRunCountAux s.data false

/-! ### Helper lemmas about the regex rules -/

lemma findIllegalRun_eq_none_iff (l : List Char) :
    findIllegalRun l = none ↔ ∀ c ∈ l, allowedSymbol c = true := by
  induction l with
  | nil => simp [findIllegalRun]
  | cons c cs ih =>
    by_cases h : allowedSymbol c = true
    · simp [findIllegalRun, h, ih]
    · simp [findIllegalRun, h]

lemma findIllegalRun_ne_nil (l r : List Char) (h : findIllegalRun l = some r) :
    r ≠ [] := by
  induction l with
  | nil => simp [findIllegalRun] at h
  | cons c cs ih =>
    by_cases hc : allowedSymbol c = true
    · rw [findIllegalRun, if_pos hc] at h
      exact ih h
    · rw [findIllegalRun, if_neg hc] at h
      injection h with h
      subst h
      simp

lemma invalidSymbolsErrors_ne_nil_iff (t : Tag) :
    invalidSymbolsErrors t ≠ [] ↔ ∃ c ∈ t.value.data, allowedSymbol c = false := by
  unfold invalidSymbolsErrors findInvalidSymbols
  cases h : findIllegalRun t.value.data with
  | none =>
    rw [findIllegalRun_eq_none_iff] at h
    constructor
    · intro hne
      simp at hne
    · rintro ⟨c, hc, hbad⟩
      simp [h c hc] at hbad
  | some r =>
    have hr : r ≠ [] := findIllegalRun_ne_nil _ _ h
    have hlen : r.asString.length = r.length := rfl
    have hpos : 0 < r.length := List.length_pos.mpr hr
    constructor
    · intro _
      by_contra hall
      push_neg at hall
      have hnone : findIllegalRun t.value.data = none := by
        rw [findIllegalRun_eq_none_iff]
        intro c hc
        have hb := hall c hc
        simpa using hb
      rw [hnone] at h
      exact Option.noConfusion h
    · intro _
      simp [hlen, hpos]

lemma illegalRunCountAux_false_eq_zero_iff (l : List Char) :
    illegalRunCountAux l false = 0 ↔ ∀ c ∈ l, allowedSymbol c = true := by
  induction l with
  | nil => simp [illegalRunCountAux]
  | cons c cs ih =>
    by_cases h : allowedSymbol c = true
    · simp [illegalRunCountAux, h, ih]
    · simp [illegalRunCountAux, h]

/-! ### Claims about the default regex rules (C2, C3, C6) -/

/-- C2 (amended: the source's allowed character class also contains the
comma): the character-set rule flags a value exactly when it contains at
least one character outside `[a-z0-9_, ]`; in particular a hyphenated value
is flagged and a value of lowercase letters, digits, underscores and spaces
is not. -/
theorem charset_rule_flags_iff :
    (∀ t : Tag,
      invalidSymbolsErrors t ≠ [] ↔ ∃ c ∈ t.value.data, allowedSymbol c = false)
    ∧ invalidSymbolsErrors ⟨"db", "created-at", "S"⟩ ≠ []
    ∧ invalidSymbolsErrors ⟨"db", "created at", "S"⟩ = [] := by
  refine ⟨invalidSymbolsErrors_ne_nil_iff, ?_, ?_⟩ <;> decide

/-- C2 counterexample: the claim says any value containing a character
outside `[a-z0-9_ ]` is flagged, but the source's regex `[^a-z0-9_, ]+` also
allows the comma: the value "," contains a character outside the claimed set
and produces no character-set error. -/
theorem charset_rule_spec_set_cex :
    specAllowedSymbol ',' = false
    ∧ invalidSymbolsErrors ⟨"db", ",", "S"⟩ = [] := by decide

/-- C3 (amended: FindString reports only the leftmost match, so the rule
produces exactly one error when the value has at least one illegal-character
run and zero when it has none, never one error per run). -/
theorem charset_rule_single_error (t : Tag) :
    (invalidSymbolsErrors t).length
      = if illegalRunCount t.value = 0 then 0 else 1 := by
  by_cases h : illegalRunCount t.value = 0
  · rw [if_pos h]
    unfold illegalRunCount at h
    rw [illegalRunCountAux_false_eq_zero_iff] at h
    have : invalidSymbolsErrors t = [] := by
      by_contra hne
      rcases (invalidSymbolsErrors_ne_nil_iff t).mp hne with ⟨c, hc, hbad⟩
      exact absurd (h c hc) (by simp [hbad])
    simp [this]
  · rw [if_neg h]
    have hne : invalidSymbolsErrors t ≠ [] := by
      rw [invalidSymbolsErrors_ne_nil_iff]
      by_contra hall
      push_neg at hall
      refine h ?_
      unfold illegalRunCount
      rw [illegalRunCountAux_false_eq_zero_iff]
      intro c hc
      have := hall c hc
      simpa using this
    unfold invalidSymbolsErrors at hne ⊢
    by_cases hm : (findInvalidSymbols t.value).length > 0
    · simp [hm]
    · simp [hm] at hne

/-- C3 counterexample: the value "a-b-c" has two distinct illegal-character
runs, yet the character-set rule produces one error, not two as the claim
states. -/
theorem charset_rule_two_runs_cex :
    illegalRunCount "a-b-c" = 2
    ∧ (invalidSymbolsErrors ⟨"db", "a-b-c", "S"⟩).length = 1 := by decide

/-- C6: the trailing-character rule flags a value exactly when it is
non-empty and its final character is outside `[a-z0-9]`; the empty value is
exempt from both regex rules and is flagged by the emptiness rule. -/
theorem trailing_rule_iff :
    (∀ t : Tag,
      badEndingErrors t ≠ []
        ↔ ∃ c, t.value.data.getLast? = some c ∧ allowedEnding c = false)
    ∧ (∀ n s : String,
        badEndingErrors ⟨n, "", s⟩ = []
        ∧ invalidSymbolsErrors ⟨n, "", s⟩ = []
        ∧ emptyProcessor ⟨n, "", s⟩ = [.emptyTag s n]) := by
  constructor
  · intro t
    unfold badEndingErrors findBadEnding
    cases h : t.value.data.getLast? with
    | none => simp [h]
    | some c =>
      by_cases hc : allowedEnding c = true
      · simp [h, hc]
      · have : (String.mk [c]).length = 1 := rfl
        simp [h, hc, this]
  · intro n s
    refine ⟨?_, ?_, ?_⟩ <;> rfl

/-! ### Helper lemmas about validate and the duplicate cache -/

lemma isDupFor_eq_false_of_not_dup (k : String) (e : VError)
    (h : isDupErr e = false) : isDupFor k e = false := by
  cases e <;> simp_all [isDupErr, isDupFor]

lemma countP_isDupFor_execErrors (ps : Processors) (k : String) (t : Tag)
    (h : ∀ e ∈ execErrors ps t, isDupErr e = false) :
    (execErrors ps t).countP (isDupFor k) = 0 := by
  rw [List.countP_eq_zero]
  intro e he
  simp [isDupFor_eq_false_of_not_dup k e (h e he)]

lemma processFields_append (ps : Processors) (a : Bool) (l1 l2 : List Tag)
    (c : Cache) :
    processFields ps a (l1 ++ l2) c
      = ((processFields ps a l1 c).1
            ++ (processFields ps a l2 (processFields ps a l1 c).2).1,
         (processFields ps a l2 (processFields ps a l1 c).2).2) := by
  induction l1 generalizing c with
  | nil => simp [processFields]
  | cons t ts ih => simp [processFields, ih]

lemma processGroups_eq_flat (ps : Processors) (a : Bool) (gs : TagsMap)
    (c : Cache) :
    processGroups ps a gs c
      = processFields ps a (gs.flatMap (fun g => g.2)) c := by
  induction gs generalizing c with
  | nil => simp [processGroups, processFields]
  | cons g rest ih =>
    simp only [processGroups, List.flatMap_cons, processFields_append, ih]

lemma processFields_cons_false (ps : Processors) (t : Tag) (ts : List Tag)
    (c : Cache) :
    processFields ps false (t :: ts) c
      = (((if tagKey t ∈ c
            then [VError.duplicateTag t.value t.structName t.name] else [])
           ++ execErrors ps t)
           ++ (processFields ps false ts (tagKey t :: c)).1,
         (processFields ps false ts (tagKey t :: c)).2) := rfl

lemma countDup_processFields (ps : Processors) (k : String) (ts : List Tag)
    (c : Cache)
    (hps : ∀ t ∈ ts, ∀ e ∈ execErrors ps t, isDupErr e = false) :
    ((processFields ps false ts c).1.countP (isDupFor k))
      = ts.countP (fun t => tagKey t == k) - (if k ∈ c then 0 else 1) := by
  induction ts generalizing c with
  | nil => simp [processFields]
  | cons t ts ih =>
    have hhead : ∀ e ∈ execErrors ps t, isDupErr e = false :=
      hps t (by simp)
    have htail : ∀ t' ∈ ts, ∀ e ∈ execErrors ps t', isDupErr e = false :=
      fun t' ht' => hps t' (by simp [ht'])
    rw [processFields_cons_false]
    simp only [List.countP_append, countP_isDupFor_execErrors ps k t hhead,
      ih (tagKey t :: c) htail, List.countP_cons]
    have hred : ∀ k',
        isDupFor k' (VError.duplicateTag t.value t.structName t.name)
          = (tagKey t == k') := fun _ => rfl
    by_cases hk : tagKey t = k
    · subst hk
      by_cases hc : tagKey t ∈ c
      · simp [hc, hred, List.countP_cons]
        omega
      · simp [hc, hred, List.countP_cons]
    · have hk2 : ¬(k = tagKey t) := fun h => hk h.symm
      have hbeq : (tagKey t == k) = false := by
        simpa using hk
      by_cases hc : tagKey t ∈ c
      · simp [hc, hred, hbeq, List.mem_cons, hk2, List.countP_cons]
      · simp [hc, hred, hbeq, List.mem_cons, hk2, List.countP_cons]

lemma processFields_true_fst (ps : Processors) (ts : List Tag) (c : Cache) :
    (processFields ps true ts c).1 = ts.flatMap (fun t => execErrors ps t) := by
  induction ts generalizing c with
  | nil => simp [processFields]
  | cons t ts ih => simp [processFields, processField, ih]

lemma processFields_fst_eq_nil (ps : Processors) (a : Bool) (ts : List Tag)
    (c : Cache) (h : (processFields ps a ts c).1 = []) :
    ∀ t ∈ ts, execErrors ps t = [] := by
  induction ts generalizing c with
  | nil => simp
  | cons t ts ih =>
    simp only [processFields] at h
    rcases List.append_eq_nil.mp h with ⟨h1, h2⟩
    simp only [processField] at h1
    rcases List.append_eq_nil.mp h1 with ⟨_, hexec⟩
    intro t' ht'
    rcases List.mem_cons.mp ht' with rfl | hmem
    · exact hexec
    · exact ih _ h2 t' hmem

/-! ### Claims about duplicate detection and the run result (C1, C9, C4) -/

/-- C1 (amended: the duplicate cache is keyed by the dot-joined string
structName ++ "." ++ tagName ++ "." ++ value rather than by the raw triple):
in a run with allowDuplicates=false, for every cache key k, N processed Tag
Records whose key is k yield exactly N-1 duplicate findings for k — the
first occurrence none, every subsequent one exactly one; with
allowDuplicates=true the run yields zero duplicate findings.  The hypothesis
says the registered processors themselves emit no duplicate-shaped error on
the processed records (true of the default rules). -/
theorem duplicate_findings_count (ps : Processors) (tags : TagsMap)
    (k : String)
    (hps : ∀ t ∈ tags.flatMap (fun g => g.2), ∀ e ∈ execErrors ps t,
      isDupErr e = false) :
    ((validate ps false tags).countP (isDupFor k)
        = (tags.flatMap (fun g => g.2)).countP (fun t => tagKey t == k) - 1)
    ∧ (validate ps true tags).countP isDupErr = 0 := by
  constructor
  · unfold validate
    by_cases h : tags.isEmpty = true
    · have hz : tags = [] := by simpa using h
      subst hz
      simp [isDupFor]
    · rw [if_neg h, processGroups_eq_flat,
        countDup_processFields ps k _ [] hps]
      simp
  · unfold validate
    by_cases h : tags.isEmpty = true
    · have hz : tags = [] := by simpa using h
      subst hz
      simp [isDupErr]
    · rw [if_neg h, processGroups_eq_flat, processFields_true_fst,
        List.countP_eq_zero]
      intro e he
      rcases List.mem_flatMap.mp he with ⟨t, ht, he2⟩
      simp [hps t ht e he2]

/-- C1 witness: three records with the same key under the default `db` rules
yield two duplicate findings when duplicates are disallowed and none when
they are allowed. -/
theorem duplicate_findings_count_witness :
    ((validate (addDefaultProcessors [] ["db"]) false
        [("s", [(⟨"db", "v", "s"⟩ : Tag), ⟨"db", "v", "s"⟩,
          ⟨"db", "v", "s"⟩])]).countP (isDupFor "s.db.v")
        = ([("s", [(⟨"db", "v", "s"⟩ : Tag), ⟨"db", "v", "s"⟩,
            ⟨"db", "v", "s"⟩])].flatMap (fun g => g.2)).countP
              (fun t => tagKey t == "s.db.v") - 1)
    ∧ (validate (addDefaultProcessors [] ["db"]) true
        [("s", [(⟨"db", "v", "s"⟩ : Tag), ⟨"db", "v", "s"⟩,
          ⟨"db", "v", "s"⟩])]).countP isDupErr = 0 :=
  duplicate_findings_count (addDefaultProcessors [] ["db"])
    [("s", [⟨"db", "v", "s"⟩, ⟨"db", "v", "s"⟩, ⟨"db", "v", "s"⟩])]
    "s.db.v" (by decide)

/-- C1 counterexample: two records with distinct (structName, tagName, value)
triples — under the claim neither is a repeat occurrence of any key, so no
duplicate finding should appear — still produce one duplicate finding,
because the cache keys "s.x"+"."+"y"+"."+"v" and "s"+"."+"x.y"+"."+"v"
coincide. -/
theorem duplicate_triple_claim_cex :
    (Tag.mk "y" "v" "s.x" ≠ Tag.mk "x.y" "v" "s")
    ∧ (validate (addDefaultProcessors [] ["db"]) false
        [("s.x", [⟨"y", "v", "s.x"⟩]), ("s", [⟨"x.y", "v", "s"⟩])]).countP
          isDupErr = 1 := by decide

/-- C9: the duplicate-cache key is the dot-joined string, which is not
injective over triples: the records ("a.b","c","d") and ("a","b.c","d") have
distinct triples but the same key, and the second is reported as a duplicate
although its exact triple was never seen before in the run. -/
theorem dup_cache_key_collision :
    (Tag.mk "c" "d" "a.b" ≠ Tag.mk "b.c" "d" "a")
    ∧ tagKey ⟨"c", "d", "a.b"⟩ = tagKey ⟨"b.c", "d", "a"⟩
    ∧ validate (addDefaultProcessors [] ["db"]) false
        [("a.b", [⟨"c", "d", "a.b"⟩]), ("a", [⟨"b.c", "d", "a"⟩])]
      = [.duplicateTag "d" "a" "b.c"] := by decide

/-- C4: with an empty tags map the run returns exactly the single
"No tags found" error, never an empty list; an empty error list arises only
when at least one Tag Record was processed (using getTags' invariant that
every struct entry holds at least one record) and every applicable processor
produced no finding on any processed record. -/
theorem no_tags_found_vs_empty (ps : Processors) (allowDup : Bool)
    (tags : TagsMap) (hinv : ∀ g ∈ tags, g.2 ≠ []) :
    (tags = [] → validate ps allowDup tags = [.noTagsFound])
    ∧ (validate ps allowDup tags = [] →
        (∃ g ∈ tags, ∃ t, t ∈ g.2)
        ∧ ∀ t ∈ tags.flatMap (fun g => g.2), execErrors ps t = []) := by
  constructor
  · intro h
    subst h
    rfl
  · intro h
    have hne : tags ≠ [] := by
      intro hz
      subst hz
      simp [validate] at h
    constructor
    · rcases hcase : tags with _ | ⟨g, rest⟩
      · exact absurd hcase hne
      · refine ⟨g, by simp, ?_⟩
        rcases hg2 : g.2 with _ | ⟨t, ts⟩
        · exact absurd hg2 (hinv g (by simp [hcase]))
        · exact ⟨t, by simp [hg2]⟩
    · have hproc : (processGroups ps allowDup tags []).1 = [] := by
        unfold validate at h
        rwa [if_neg (by simpa using hne)] at h
      rw [processGroups_eq_flat] at hproc
      exact processFields_fst_eq_nil ps allowDup _ [] hproc

/-- C4 witness: the empty tags map yields exactly the "No tags found"
error. -/
theorem no_tags_found_vs_empty_witness :
    (([] : TagsMap) = [] → validate [] false [] = [.noTagsFound])
    ∧ (validate [] false [] = [] →
        (∃ g ∈ ([] : TagsMap), ∃ t, t ∈ g.2)
        ∧ ∀ t ∈ ([] : TagsMap).flatMap (fun g => g.2),
            execErrors [] t = []) :=
  no_tags_found_vs_empty [] false [] (by simp)

/-! ### Claims about Run, the registry and the file filter (C5, C8, C10, C7) -/

/-- C5 counterexample: a Run invocation with an empty Rule Registry whose
package scan finds no packages panics with "No structs found" instead of
returning the single configuration error, because Run calls getPackages
before inspecting the registry. -/
theorem empty_registry_panic_cex :
    run (NewValidator "p") (getPackages (Except.ok []) "p") (fun _ _ => [])
      = Except.error (GoPanic.noStructs "p") := rfl

/-- C5 (amended: restricted to invocations whose package scan succeeds — a
panicking scan propagates instead, as C10 records): with an empty Rule
Registry and a successful scan, Run aborts before any per-tag processing
(the tags field is left untouched, extraction never runs) and returns the
configuration error as the sole element of the result list. -/
theorem empty_registry_config_error (v : Validator) (pkgs : List Pkg)
    (extract : List String → List Pkg → TagsMap)
    (h : v.processors = []) :
    run v (Except.ok pkgs) extract
      = Except.ok ({ v with packages := pkgs }, [.noProcessors]) := by
  simp [run, h]

/-- C5 witness: a fresh validator with no processors and a successful scan
gets exactly the configuration error. -/
theorem empty_registry_config_error_witness :
    run (NewValidator "models") (Except.ok ["pkg"]) (fun _ _ => [])
      = Except.ok ({ NewValidator "models" with packages := ["pkg"] },
          [.noProcessors]) :=
  empty_registry_config_error (NewValidator "models") ["pkg"]
    (fun _ _ => []) rfl

/-- C10: Run evaluates the package scan before inspecting the rule registry,
and getPackages panics when the path yields no packages; so every Run with
an empty registry on such a path propagates the panic instead of returning
the single configuration error. -/
theorem run_scan_panic_before_registry_check (v : Validator)
    (extract : List String → List Pkg → TagsMap)
    (h : v.processors = []) :
    getPackages (Except.ok []) v.path = Except.error (.noStructs v.path)
    ∧ run v (getPackages (Except.ok []) v.path) extract
        = Except.error (.noStructs v.path) :=
  ⟨rfl, rfl⟩

/-- C10 witness: a fresh validator (empty registry) on a structless path. -/
theorem run_scan_panic_before_registry_check_witness :
    getPackages (Except.ok []) (NewValidator "m").path
        = Except.error (.noStructs (NewValidator "m").path)
    ∧ run (NewValidator "m")
        (getPackages (Except.ok []) (NewValidator "m").path) (fun _ _ => [])
        = Except.error (.noStructs (NewValidator "m").path) :=
  run_scan_panic_before_registry_check (NewValidator "m") (fun _ _ => []) rfl

/-- C8: a run leaves the Rule Registry observably unchanged: whenever Run
returns a result, the returned validator's processors map is the one the run
started with, so every tag-name key maps to the same rule list; only the
packages and tags fields (and the run-local duplicate cache and error list)
are written. -/
theorem run_preserves_processors (v : Validator)
    (scan : Except GoPanic (List Pkg))
    (extract : List String → List Pkg → TagsMap) (v2 : Validator)
    (errs : List VError) (h : run v scan extract = Except.ok (v2, errs)) :
    v2.processors = v.processors
    ∧ ∀ k, lookupProcs v2.processors k = lookupProcs v.processors k := by
  cases scan with
  | error p => exact absurd h (by simp [run])
  | ok pkgs =>
    simp only [run] at h
    split at h
    · rw [Except.ok.injEq, Prod.mk.injEq] at h
      rcases h with ⟨hv, _⟩
      subst hv
      exact ⟨rfl, fun k => rfl⟩
    · rw [Except.ok.injEq, Prod.mk.injEq] at h
      rcases h with ⟨hv, _⟩
      subst hv
      exact ⟨rfl, fun k => rfl⟩

/-- C8 witness: a run with the default `db` rules over one extracted record
returns a validator whose registry is unchanged. -/
theorem run_preserves_processors_witness :
    ({ NewValidator "m" with
        processors := addDefaultProcessors [] ["db"],
        packages := ["pkg"],
        tags := [("s", [(⟨"db", "created_at", "s"⟩ : Tag)])] } :
          Validator).processors
      = ({ NewValidator "m" with
            processors := addDefaultProcessors [] ["db"] } :
              Validator).processors
    ∧ ∀ k, lookupProcs ({ NewValidator "m" with
          processors := addDefaultProcessors [] ["db"],
          packages := ["pkg"],
          tags := [("s", [(⟨"db", "created_at", "s"⟩ : Tag)])] } :
            Validator).processors k
        = lookupProcs ({ NewValidator "m" with
            processors := addDefaultProcessors [] ["db"] } :
              Validator).processors k :=
  run_preserves_processors
    { NewValidator "m" with processors := addDefaultProcessors [] ["db"] }
    (Except.ok ["pkg"])
    (fun _ _ => [("s", [⟨"db", "created_at", "s"⟩])])
    { NewValidator "m" with
        processors := addDefaultProcessors [] ["db"],
        packages := ["pkg"],
        tags := [("s", [⟨"db", "created_at", "s"⟩])] }
    [] rfl

/-- C7 (code bug witness): the file filter accepts the test file
"other_test.go" although it was not among the requested structure names
(the filter computes isNotTest != !exists, which is true for an unrequested
test file), while the empty request set correctly keeps test files out and
requested non-test files in. -/
theorem file_filter_accepts_unrequested_test :
    fileFilter ["customer"] "other_test.go" = true
    ∧ fileFilter [] "other_test.go" = false
    ∧ fileFilter ["customer"] "customer.go" = true
    ∧ fileFilter ["customer"] "other.go" = false := by decide

end StructTagValidator
